/-
Verification of the aggregation-and-cache core of the kptv-fast
unified streaming aggregator.

The definitions below are a shallow embedding of the Python source:
  * `validate_channel`, `normalize_channel`, `validate_programme`,
    `normalize_programme` embed `src/providers/base_provider.py`;
  * `providerProcess` embeds the uniform per-record pattern
    `if self.validate_channel(c): out.append(self.normalize_channel(c))`
    used by every provider (e.g. `src/providers/samsung_provider.py`);
  * `applyFilters`, `removeDuplicates`, `gatherChannels`, `sortChannels`
    and `get_all_channels` embed
    `UnifiedStreamingAggregator._apply_filters`, `_remove_duplicates`
    and `_get_all_channels` from `src/app.py`;
  * `dictUpdate` / `get_all_epg` embed `_get_all_epg_data` (merging via
    Python `dict.update`, insertion order preserved);
  * `callChannels` embeds the cache check / compute / store sequence of
    `_get_all_channels` (`_is_cache_valid`, `channels_cache`,
    `cache_expiry`), with time as an explicit `Nat` parameter and an
    explicit count of compute passes;
  * `runSched` is a two-thread interleaving model of the same sequence,
    in which the two `with self.cache_lock` blocks are atomic steps and
    the computation happens between them, exactly as in the source.

Python string truthiness (`if not channel.get(field)`) is embedded as
"present and non-empty"; Python dict keys that may be absent or `None`
are embedded as `Option`.
-/
import Mathlib

namespace KptvFast

/-! ## Data model -/

/-- A raw channel record as handed to `validate_channel` /
`normalize_channel`: every field may be absent (or `None`). -/
structure RawChannel where
  id : Option String := none
  name : Option String := none
  stream_url : Option String := none
  logo : Option String := none
  group : Option String := none
  number : Option Int := none
  description : Option String := none
  language : Option String := none
deriving DecidableEq, Repr

/-- A channel dictionary after `normalize_channel` and (possibly) the
orchestrator's annotation: `id`, `name`, `stream_url` are always present
(possibly empty), the other keys are present only when non-empty. -/
structure Channel where
  id : String
  name : String
  stream_url : String
  logo : Option String := none
  group : Option String := none
  number : Option Int := none
  description : Option String := none
  language : Option String := none
  provider : Option String := none
  channel_number : Option Int := none
deriving DecidableEq, Repr

/-- Python truthiness of an optional string value: the key is present
and the string is non-empty. -/
def truthy : Option String → Bool
  | none => false
  | some s => s ≠ ""

/-- Python `str.strip()`: drop leading and trailing whitespace.
(Defined on the character list so that it is kernel-computable.) -/
def pyStrip (s : String) : String :=
  String.mk (((s.data.dropWhile Char.isWhitespace).reverse.dropWhile
    Char.isWhitespace).reverse)

/-- Python `str.lower()` (ASCII case mapping). -/
def pyLower (s : String) : String :=
  String.mk (s.data.map Char.toLower)

/-! ## BaseProvider.validate_channel / normalize_channel
(src/providers/base_provider.py lines 66-135) -/

/-- `validate_channel`: requires truthy `id`, `name`, `stream_url`
(checked in that order, short-circuiting). -/
def validate_channel (c : RawChannel) : Bool :=
  truthy c.id && truthy c.name && truthy c.stream_url

/-- Helper for optional fields set only when truthy and then stripped;
the final dict comprehension in `normalize_channel` removes the key
again when the stripped value is empty. -/
def optField (o : Option String) : Option String :=
  if truthy o then
    let t := pyStrip (o.getD "")
    if t = "" then none else some t
  else none

/-- Helper for `group` / `language`: as `optField` but with a default
inserted when the raw value is absent or falsy. -/
def optFieldD (o : Option String) (dflt : String) : Option String :=
  if truthy o then
    let t := pyStrip (o.getD "")
    if t = "" then none else some t
  else some dflt

/-- `normalize_channel`: `id` is stringified but NOT stripped; `name`
and `stream_url` are stripped; `group` defaults to `"General"` and
`language` to `"en"`; empty-string values are dropped for all keys
except `id`, `name`, `stream_url`. -/
def normalize_channel (c : RawChannel) : Channel :=
  { id := c.id.getD ""
    name := pyStrip (c.name.getD "")
    stream_url := pyStrip (c.stream_url.getD "")
    logo := optField c.logo
    group := optFieldD c.group "General"
    number := c.number
    description := optField c.description
    language := optFieldD c.language "en" }

/-- The uniform per-record pipeline every provider runs
(`if self.validate_channel(channel):
    processed_channels.append(self.normalize_channel(channel))`). -/
def providerProcess (c : RawChannel) : Option Channel :=
  if validate_channel c then some (normalize_channel c) else none

/-- A provider's channel list built from its raw records. -/
def providerChannels (raws : List RawChannel) : List Channel :=
  raws.filterMap providerProcess

/-! ## Programmes: BaseProvider.validate_programme / normalize_programme
(src/providers/base_provider.py lines 137-193) -/

/-- A raw EPG programme record. -/
structure RawProg where
  title : Option String := none
  description : Option String := none
  start : Option String := none
  stop : Option String := none
  category : Option String := none
  episode : Option String := none
deriving DecidableEq, Repr

/-- A programme after `normalize_programme`. -/
structure GuideEntry where
  title : String
  start : String
  stop : String
  description : Option String := none
  category : Option String := none
  episode : Option String := none
deriving DecidableEq, Repr

/-- `validate_programme`: requires truthy `title`, `start`, `stop`;
no comparison between `start` and `stop` is performed. -/
def validate_programme (p : RawProg) : Bool :=
  truthy p.title && truthy p.start && truthy p.stop

/-- `normalize_programme`: strips the three required fields, keeps
optional fields only when truthy and non-empty after stripping. -/
def normalize_programme (p : RawProg) : GuideEntry :=
  { title := pyStrip (p.title.getD "")
    start := pyStrip (p.start.getD "")
    stop := pyStrip (p.stop.getD "")
    description := optField p.description
    category := optField p.category
    episode := optField p.episode }

/-- The per-entry pipeline used by the providers' `get_epg_data`
(`if self.validate_programme(p): epg_data[cid].append(self.normalize_programme(p))`). -/
def progProcess (p : RawProg) : Option GuideEntry :=
  if validate_programme p then some (normalize_programme p) else none

/-- One channel's validated entry list as a provider builds it. -/
def providerEntries (raws : List RawProg) : List GuideEntry :=
  raws.filterMap progProcess

/-! ## UnifiedStreamingAggregator._apply_filters (src/app.py lines 119-141)

The configured regex patterns are embedded as optional boolean
predicates: `none` models an empty pattern string (falsy, so the check
is skipped), `some p` models `re.search(pattern, field, IGNORECASE)`
being truthy exactly when `p field = true`. -/

structure FilterRules where
  nameInclude : Option (String → Bool) := none
  nameExclude : Option (String → Bool) := none
  groupInclude : Option (String → Bool) := none
  groupExclude : Option (String → Bool) := none

/-- The default configuration: all four filter env vars empty. -/
def noRules : FilterRules := {}

/-- The per-channel test of `_apply_filters` (`channel.get('name', '')`
and `channel.get('group', '')`, four guarded `continue`s). -/
def passesFilters (r : FilterRules) (c : Channel) : Bool :=
  let name := c.name
  let group := c.group.getD ""
  (match r.nameInclude with | none => true | some p => p name) &&
  (match r.nameExclude with | none => true | some p => !p name) &&
  (match r.groupInclude with | none => true | some p => p group) &&
  (match r.groupExclude with | none => true | some p => !p group)

/-- `_apply_filters`: keep, in input order, the channels passing all
four checks. -/
def applyFilters (r : FilterRules) (l : List Channel) : List Channel :=
  l.filter (passesFilters r)

/-! ## UnifiedStreamingAggregator._remove_duplicates (src/app.py lines 143-160) -/

/-- The dedup key: `(channel.get('name','').lower().strip(),
channel.get('stream_url',''))`. -/
def dedupKey (c : Channel) : String × String :=
  (pyStrip (pyLower c.name), c.stream_url)

/-- The loop of `_remove_duplicates`, with the `seen` set made explicit:
a channel is kept iff its key is unseen AND both key components are
non-empty (`if key not in seen and key[0] and key[1]`); only kept
channels extend `seen`. -/
def removeDupsGo (seen : List (String × String)) :
    List Channel → List Channel
  | [] => []
  | c :: rest =>
    if dedupKey c ∉ seen ∧ (dedupKey c).1 ≠ "" ∧ (dedupKey c).2 ≠ "" then
      c :: removeDupsGo (dedupKey c :: seen) rest
    else
      removeDupsGo seen rest

/-- `_remove_duplicates`. -/
def removeDuplicates (l : List Channel) : List Channel :=
  removeDupsGo [] l

/-! ## Provider fan-out and numbering (src/app.py lines 170-196)

A provider's `get_channels()` call either raises (`Except.error`) or
returns a channel list (`Except.ok`). The orchestrator catches the
exception and skips the provider; otherwise it sets
`channel['provider']` and
`channel['channel_number'] = channel.get('number', channel_number)`,
incrementing the running counter once per channel. -/

/-- Annotation of one successful provider's channels, threading the
running channel counter. -/
def annotateFrom (pname : String) : Nat → List Channel → List Channel
  | _, [] => []
  | n, c :: rest =>
    { c with provider := some pname,
             channel_number := some (c.number.getD (Int.ofNat n)) }
      :: annotateFrom pname (n + 1) rest

/-- The fan-out loop: failing providers are skipped (their exception is
caught and logged), successful ones are annotated; the channel counter
is advanced only by channels actually collected. -/
def gatherChannels : List (String × Except Unit (List Channel)) → Nat → List Channel
  | [], _ => []
  | (_, Except.error _) :: rest, n => gatherChannels rest n
  | (pname, Except.ok chs) :: rest, n =>
      annotateFrom pname n chs ++ gatherChannels rest (n + chs.length)

/-! ## Final ordering (src/app.py lines 198-199)

`all_channels.sort(key=lambda x: x.get('channel_number', 999999))` —
Python `list.sort` is an ascending stable sort; a missing
`channel_number` is replaced by the sentinel 999999 in the key. The
stable sort is embedded as insertion sort (insertion before the first
strictly-greater key), which is stable. -/

/-- The sort key: `x.get('channel_number', 999999)`. -/
def sortKey (c : Channel) : Int :=
  c.channel_number.getD 999999

/-- Insertion of one channel into an already-sorted list: `x` goes
before the first element whose key is not smaller. Since
`sortChannels` inserts earlier elements after later ones have been
sorted, an earlier element ends up before every equal-key later one:
the sort is stable. -/
def insertCh (x : Channel) : List Channel → List Channel
  | [] => [x]
  | y :: ys => if sortKey x ≤ sortKey y then x :: y :: ys else y :: insertCh x ys

/-- Stable ascending sort by `sortKey` (the behaviour of Python
`list.sort` with this key). -/
def sortChannels : List Channel → List Channel
  | [] => []
  | x :: xs => insertCh x (sortChannels xs)

/-- `_get_all_channels`, cache aside: fan-out over providers, then
filters, then dedup, then the stable sort. -/
def get_all_channels (r : FilterRules)
    (providers : List (String × Except Unit (List Channel))) : List Channel :=
  sortChannels (removeDuplicates (applyFilters r (gatherChannels providers 1)))

/-! ## EPG aggregation: UnifiedStreamingAggregator._get_all_epg_data
(src/app.py lines 209-236)

`all_epg_data` is a Python dict; merging is `all_epg_data.update(provider_epg)`:
an existing key keeps its position but its VALUE IS REPLACED by the new
provider's list; new keys are appended. Embedded as an insertion-ordered
association list. -/

/-- A guide table: channel id → entry list, insertion order preserved. -/
abbrev GuideTable := List (String × List GuideEntry)

/-- `d[k] = v` on an insertion-ordered dict: overwrite in place if the
key exists, else append. -/
def dictInsert (d : GuideTable) (k : String) (v : List GuideEntry) : GuideTable :=
  if d.any (fun p => p.1 = k) then
    d.map (fun p => if p.1 = k then (k, v) else p)
  else
    d ++ [(k, v)]

/-- Python `dict.update`: insert every pair of `new` into `d`, in
`new`'s order. -/
def dictUpdate (d new : GuideTable) : GuideTable :=
  new.foldl (fun acc p => dictInsert acc p.1 p.2) d

/-- Python `d.get(k)` / `d[k]` on the association list: the value of
the (unique) pair with key `k`. -/
def dictGet : GuideTable → String → Option (List GuideEntry)
  | [], _ => none
  | p :: rest, k => if p.1 = k then some p.2 else dictGet rest k

/-- The fan-out loop of `_get_all_epg_data`: a raising provider is
caught and skipped; a successful one is merged with
`all_epg_data.update(provider_epg)` (an empty table is falsy, so the
update is skipped — which is also a no-op). -/
def get_all_epg (providers : List (String × Except Unit GuideTable)) : GuideTable :=
  providers.foldl
    (fun acc p =>
      match p.2 with
      | Except.error _ => acc
      | Except.ok epg => if epg = ([] : GuideTable) then acc else dictUpdate acc epg)
    []

/-! ## Cache layer (src/app.py lines 114-117 and 162-207)

`channels_cache['all_channels']` and `cache_expiry['all_channels']` are
embedded as two `Option` fields; `time.time()` as an explicit `Nat`
argument. `callChannels` is one call to `_get_all_channels`: check
validity under the lock; on a hit return the cached list; on a miss run
the full fan-out pipeline (0 or 1 compute passes, returned as the last
component), store the result and `now + cache_duration`, return it. -/

/-- The aggregator's mutable cache state for the `all_channels` key. -/
structure AggState where
  channels_cache : Option (List Channel) := none
  cache_expiry : Option Nat := none
deriving DecidableEq, Repr

/-- `_is_cache_valid`: the key is in `cache_expiry` and `time.time()`
is before it. -/
def is_cache_valid (s : AggState) (now : Nat) : Bool :=
  match s.cache_expiry with
  | none => false
  | some e => now < e

/-- One call of the cached `_get_all_channels`: result, new state, and
how many compute passes (provider fan-outs) ran. -/
def callChannels (r : FilterRules) (duration : Nat)
    (providers : List (String × Except Unit (List Channel)))
    (s : AggState) (now : Nat) : List Channel × AggState × Nat :=
  if is_cache_valid s now then
    (s.channels_cache.getD [], s, 0)
  else
    let result := get_all_channels r providers
    (result,
     { channels_cache := some result, cache_expiry := some (now + duration) },
     1)

/-! ## Two-thread interleaving model of `_get_all_channels`
(src/app.py lines 162-207, §5 of the specification)

Each thread runs the body of `_get_all_channels`: an atomic
check-under-lock, then the computation OUTSIDE the lock, then an atomic
store-under-lock. The payload of the computation is a fixed list `P`
(both threads would compute the same merged result), so the model
isolates exactly the question of how many compute passes run. Initially
no valid cache entry exists. -/

inductive TPC where
  | check | compute | store | done
deriving DecidableEq, Repr

/-- One thread's private state: program counter and the value it will
return to its caller (set when it finishes). -/
structure ThreadSt where
  pc : TPC := TPC.check
  result : Option (List Channel) := none
deriving DecidableEq, Repr

/-- The shared state of the interleaving model: the cache cell and its
validity, the number of compute passes that have run, and two threads. -/
structure ConcState where
  cache : Option (List Channel) := none
  cacheValid : Bool := false
  computeCount : Nat := 0
  thr0 : ThreadSt := {}
  thr1 : ThreadSt := {}
deriving DecidableEq, Repr

/-- Initial state: no cache entry, both threads about to enter
`_get_all_channels`. -/
def concInit : ConcState := {}

/-- One atomic step of a thread against the shared state:
`check` is the first `with self.cache_lock` block (return the cached
list on a hit, else fall through to compute); `compute` is the provider
fan-out outside the lock; `store` is the second locked block (write the
cache, set the expiry, return the computed list). -/
def stepThread (P : List Channel) (t : ThreadSt) (cache : Option (List Channel))
    (valid : Bool) (count : Nat) :
    ThreadSt × Option (List Channel) × Bool × Nat :=
  match t.pc with
  | TPC.check =>
    if valid then
      ({ pc := TPC.done, result := some (cache.getD []) }, cache, valid, count)
    else
      ({ t with pc := TPC.compute }, cache, valid, count)
  | TPC.compute =>
    ({ t with pc := TPC.store }, cache, valid, count + 1)
  | TPC.store =>
    ({ pc := TPC.done, result := some P }, some P, true, count)
  | TPC.done =>
    (t, cache, valid, count)

/-- One scheduler step: `false` advances thread 0, `true` advances
thread 1. -/
def oneStep (P : List Channel) (b : Bool) (s : ConcState) : ConcState :=
  if b then
    let r := stepThread P s.thr1 s.cache s.cacheValid s.computeCount
    { s with thr1 := r.1, cache := r.2.1, cacheValid := r.2.2.1, computeCount := r.2.2.2 }
  else
    let r := stepThread P s.thr0 s.cache s.cacheValid s.computeCount
    { s with thr0 := r.1, cache := r.2.1, cacheValid := r.2.2.1, computeCount := r.2.2.2 }

/-- Run a schedule of interleaved thread steps. -/
def runSched (P : List Channel) : List Bool → ConcState → ConcState
  | [], s => s
  | b :: rest, s => runSched P rest (oneStep P b s)

/-! ## Properties of the stable sort -/

theorem mem_insertCh {z x : Channel} {l : List Channel} :
    z ∈ insertCh x l ↔ z = x ∨ z ∈ l := by
  induction l with
  | nil => simp [insertCh]
  | cons y ys ih =>
    by_cases h : sortKey x ≤ sortKey y
    · simp [insertCh, h]
    · simp only [insertCh, if_neg h, List.mem_cons, ih]
      tauto

theorem insertCh_perm (x : Channel) (l : List Channel) :
    List.Perm (insertCh x l) (x :: l) := by
  induction l with
  | nil => simp [insertCh]
  | cons y ys ih =>
    by_cases h : sortKey x ≤ sortKey y
    · simp [insertCh, h]
    · simp only [insertCh, if_neg h]
      exact (ih.cons y).trans (List.Perm.swap x y ys)

theorem sortChannels_perm (l : List Channel) :
    List.Perm (sortChannels l) l := by
  induction l with
  | nil => simp [sortChannels]
  | cons x xs ih => exact (insertCh_perm x (sortChannels xs)).trans (ih.cons x)

theorem insertCh_sorted {x : Channel} {l : List Channel}
    (h : l.Pairwise (fun a b => sortKey a ≤ sortKey b)) :
    (insertCh x l).Pairwise (fun a b => sortKey a ≤ sortKey b) := by
  induction l with
  | nil => simp [insertCh]
  | cons y ys ih =>
    rcases List.pairwise_cons.mp h with ⟨hy, hys⟩
    by_cases hle : sortKey x ≤ sortKey y
    · simp only [insertCh, if_pos hle]
      refine List.pairwise_cons.mpr ⟨?_, h⟩
      intro z hz
      rcases List.mem_cons.mp hz with rfl | hz
      · exact hle
      · exact le_trans hle (hy z hz)
    · simp only [insertCh, if_neg hle]
      refine List.pairwise_cons.mpr ⟨?_, ih hys⟩
      intro z hz
      rcases mem_insertCh.mp hz with rfl | hz
      · exact le_of_lt (not_le.mp hle)
      · exact hy z hz

theorem sortChannels_sorted (l : List Channel) :
    (sortChannels l).Pairwise (fun a b => sortKey a ≤ sortKey b) := by
  induction l with
  | nil => simp [sortChannels]
  | cons x xs ih => exact insertCh_sorted ih

theorem self_sublist_insertCh (x : Channel) (l : List Channel) :
    l.Sublist (insertCh x l) := by
  induction l with
  | nil => simp [insertCh]
  | cons y ys ih =>
    by_cases hle : sortKey x ≤ sortKey y
    · simp only [insertCh, if_pos hle]
      exact List.Sublist.cons x (List.Sublist.refl _)
    · simp only [insertCh, if_neg hle]
      exact List.Sublist.cons₂ y ih

theorem pair_sublist_insertCh {a b : Channel} {l : List Channel}
    (hab : sortKey a ≤ sortKey b) (hb : b ∈ l) :
    [a, b].Sublist (insertCh a l) := by
  induction l with
  | nil => cases hb
  | cons y ys ih =>
    by_cases hle : sortKey a ≤ sortKey y
    · simp only [insertCh, if_pos hle]
      exact List.Sublist.cons₂ a (List.singleton_sublist.mpr hb)
    · simp only [insertCh, if_neg hle]
      rcases List.mem_cons.mp hb with rfl | hb'
      · exact absurd hab hle
      · exact List.Sublist.cons y (ih hb')

theorem pair_sublist_sortChannels {a b : Channel} {l : List Channel}
    (h : [a, b].Sublist l) (hab : sortKey a ≤ sortKey b) :
    [a, b].Sublist (sortChannels l) := by
  induction l with
  | nil => cases h
  | cons x xs ih =>
    cases h with
    | cons _ h' => exact (ih h').trans (self_sublist_insertCh x (sortChannels xs))
    | cons₂ _ h' =>
      exact pair_sublist_insertCh hab
        ((sortChannels_perm xs).mem_iff.mpr (List.singleton_sublist.mp h'))

/-! ## Properties of deduplication -/

theorem removeDupsGo_sublist (seen : List (String × String)) (l : List Channel) :
    (removeDupsGo seen l).Sublist l := by
  induction l generalizing seen with
  | nil => simp [removeDupsGo]
  | cons c rest ih =>
    by_cases h : dedupKey c ∉ seen ∧ (dedupKey c).1 ≠ "" ∧ (dedupKey c).2 ≠ ""
    · simp only [removeDupsGo, if_pos h]
      exact List.Sublist.cons₂ c (ih _)
    · simp only [removeDupsGo, if_neg h]
      exact List.Sublist.cons c (ih _)

theorem mem_removeDupsGo_valid {c : Channel} {seen : List (String × String)}
    {l : List Channel} (h : c ∈ removeDupsGo seen l) :
    (dedupKey c).1 ≠ "" ∧ (dedupKey c).2 ≠ "" := by
  induction l generalizing seen with
  | nil => simp [removeDupsGo] at h
  | cons d rest ih =>
    by_cases hd : dedupKey d ∉ seen ∧ (dedupKey d).1 ≠ "" ∧ (dedupKey d).2 ≠ ""
    · simp only [removeDupsGo, if_pos hd, List.mem_cons] at h
      rcases h with rfl | h
      · exact hd.2
      · exact ih h
    · simp only [removeDupsGo, if_neg hd] at h
      exact ih h

theorem mem_removeDupsGo_not_seen {c : Channel} {seen : List (String × String)}
    {l : List Channel} (h : c ∈ removeDupsGo seen l) :
    dedupKey c ∉ seen := by
  induction l generalizing seen with
  | nil => simp [removeDupsGo] at h
  | cons d rest ih =>
    by_cases hd : dedupKey d ∉ seen ∧ (dedupKey d).1 ≠ "" ∧ (dedupKey d).2 ≠ ""
    · simp only [removeDupsGo, if_pos hd, List.mem_cons] at h
      rcases h with rfl | h
      · exact hd.1
      · have := ih h
        intro hc
        exact this (List.mem_cons_of_mem _ hc)
    · simp only [removeDupsGo, if_neg hd] at h
      exact ih h

theorem removeDupsGo_pairwise (seen : List (String × String)) (l : List Channel) :
    (removeDupsGo seen l).Pairwise (fun a b => dedupKey a ≠ dedupKey b) := by
  induction l generalizing seen with
  | nil => simp [removeDupsGo]
  | cons c rest ih =>
    by_cases h : dedupKey c ∉ seen ∧ (dedupKey c).1 ≠ "" ∧ (dedupKey c).2 ≠ ""
    · simp only [removeDupsGo, if_pos h]
      refine List.pairwise_cons.mpr ⟨?_, ih _⟩
      intro d hd
      have := mem_removeDupsGo_not_seen hd
      intro heq
      exact this (heq ▸ List.mem_cons_self _ _)
    · simp only [removeDupsGo, if_neg h]
      exact ih _

theorem find?_mem_removeDupsGo {k : String × String} {d : Channel}
    {seen : List (String × String)} {l : List Channel}
    (h1 : k.1 ≠ "") (h2 : k.2 ≠ "") (hk : k ∉ seen)
    (hf : l.find? (fun x => dedupKey x = k) = some d) :
    d ∈ removeDupsGo seen l := by
  induction l generalizing seen with
  | nil => simp [List.find?] at hf
  | cons c rest ih =>
    by_cases hck : dedupKey c = k
    · rw [List.find?_cons_of_pos _ (by simpa using hck)] at hf
      obtain rfl : c = d := by injection hf
      have hcond : dedupKey c ∉ seen ∧ (dedupKey c).1 ≠ "" ∧ (dedupKey c).2 ≠ "" := by
        rw [hck]; exact ⟨hk, h1, h2⟩
      simp only [removeDupsGo, if_pos hcond]
      exact List.mem_cons_self _ _
    · rw [List.find?_cons_of_neg _ (by simpa using hck)] at hf
      by_cases hcond : dedupKey c ∉ seen ∧ (dedupKey c).1 ≠ "" ∧ (dedupKey c).2 ≠ ""
      · simp only [removeDupsGo, if_pos hcond]
        refine List.mem_cons_of_mem _ (ih ?_ hf)
        intro hmem
        rcases List.mem_cons.mp hmem with heq | hmem'
        · exact hck heq.symm
        · exact hk hmem'
      · simp only [removeDupsGo, if_neg hcond]
        exact ih hk hf

/-! ## Properties of the fan-out and annotation -/

theorem mem_annotateFrom {c : Channel} {pname : String} {n : Nat}
    {chs : List Channel} (h : c ∈ annotateFrom pname n chs) :
    ∃ c₀ ∈ chs, c.id = c₀.id ∧ c.name = c₀.name ∧ c.stream_url = c₀.stream_url := by
  induction chs generalizing n with
  | nil => simp [annotateFrom] at h
  | cons d rest ih =>
    simp only [annotateFrom, List.mem_cons] at h
    rcases h with rfl | h
    · exact ⟨d, List.mem_cons_self _ _, rfl, rfl, rfl⟩
    · obtain ⟨c₀, hc₀, h1, h2, h3⟩ := ih h
      exact ⟨c₀, List.mem_cons_of_mem _ hc₀, h1, h2, h3⟩

theorem mem_gatherChannels {c : Channel}
    {providers : List (String × Except Unit (List Channel))} {n : Nat}
    (h : c ∈ gatherChannels providers n) :
    ∃ pname payload c₀, (pname, Except.ok payload) ∈ providers ∧ c₀ ∈ payload ∧
      c.id = c₀.id ∧ c.name = c₀.name ∧ c.stream_url = c₀.stream_url := by
  induction providers generalizing n with
  | nil => simp [gatherChannels] at h
  | cons p rest ih =>
    obtain ⟨pname, pr⟩ := p
    cases pr with
    | error e =>
      obtain ⟨q, payload, c₀, hmem, h2⟩ := ih (n := n) h
      exact ⟨q, payload, c₀, List.mem_cons_of_mem _ hmem, h2⟩
    | ok chs =>
      simp only [gatherChannels, List.mem_append] at h
      rcases h with h | h
      · obtain ⟨c₀, hc₀, h1, h2, h3⟩ := mem_annotateFrom h
        exact ⟨pname, chs, c₀, List.mem_cons_self _ _, hc₀, h1, h2, h3⟩
      · obtain ⟨q, payload, c₀, hmem, h2⟩ := ih h
        exact ⟨q, payload, c₀, List.mem_cons_of_mem _ hmem, h2⟩

theorem gatherChannels_drop_error
    (ps qs : List (String × Except Unit (List Channel))) (nm : String) (n : Nat) :
    gatherChannels (ps ++ (nm, Except.error ()) :: qs) n = gatherChannels (ps ++ qs) n := by
  induction ps generalizing n with
  | nil => rfl
  | cons p rest ih =>
    obtain ⟨pname, pr⟩ := p
    cases pr with
    | error e => simpa [gatherChannels] using ih n
    | ok chs => simp [gatherChannels, ih]

theorem gatherChannels_all_error
    {providers : List (String × Except Unit (List Channel))} {n : Nat}
    (h : ∀ p ∈ providers, p.2 = Except.error ()) :
    gatherChannels providers n = [] := by
  induction providers generalizing n with
  | nil => rfl
  | cons p rest ih =>
    obtain ⟨pname, pr⟩ := p
    have hp := h _ (List.mem_cons_self _ _)
    simp only at hp
    subst hp
    exact ih fun q hq => h q (List.mem_cons_of_mem _ hq)

/-! ## Properties of the per-record provider pipeline -/

theorem mem_providerChannels {c : Channel} {raws : List RawChannel}
    (h : c ∈ providerChannels raws) :
    ∃ raw, validate_channel raw = true ∧ c = normalize_channel raw := by
  simp only [providerChannels, List.mem_filterMap] at h
  obtain ⟨raw, _, hp⟩ := h
  simp only [providerProcess] at hp
  by_cases hv : validate_channel raw
  · rw [if_pos hv] at hp
    exact ⟨raw, hv, (Option.some.injEq _ _ ▸ hp).symm⟩
  · rw [if_neg hv] at hp
    cases hp

theorem validate_channel_id_ne {raw : RawChannel}
    (h : validate_channel raw = true) : (normalize_channel raw).id ≠ "" := by
  simp only [validate_channel, Bool.and_eq_true] at h
  obtain ⟨⟨hid, _⟩, _⟩ := h
  cases hraw : raw.id with
  | none => simp [truthy, hraw] at hid
  | some s =>
    have hs : s ≠ "" := by simpa [truthy, hraw] using hid
    simpa [normalize_channel, hraw] using hs

/-! ## Properties of the guide-table merge -/

theorem dictGet_mapReplace {d : GuideTable} {k k' : String} {v : List GuideEntry}
    (h : k' ≠ k) :
    dictGet (d.map (fun p => if p.1 = k then (k, v) else p)) k' = dictGet d k' := by
  induction d with
  | nil => rfl
  | cons p rest ih =>
    by_cases hp : p.1 = k
    · simp only [List.map_cons, if_pos hp, dictGet, if_neg (Ne.symm h), ih,
        if_neg (hp ▸ Ne.symm h : ¬ p.1 = k')]
    · simp only [List.map_cons, if_neg hp, dictGet]
      by_cases hpk : p.1 = k'
      · simp only [if_pos hpk]
      · simp only [if_neg hpk, ih]

theorem dictGet_append_single {d : GuideTable} {k k' : String} {v : List GuideEntry}
    (h : k' ≠ k) : dictGet (d ++ [(k, v)]) k' = dictGet d k' := by
  induction d with
  | nil => simp [dictGet, Ne.symm h]
  | cons p rest ih =>
    by_cases hpk : p.1 = k'
    · simp only [List.cons_append, dictGet, if_pos hpk]
    · simp only [List.cons_append, dictGet, if_neg hpk]
      exact ih

theorem dictGet_dictInsert_self (d : GuideTable) (k : String) (v : List GuideEntry) :
    dictGet (dictInsert d k v) k = some v := by
  induction d with
  | nil => simp [dictInsert, dictGet]
  | cons p rest ih =>
    by_cases hp : p.1 = k
    · have hany : ((p :: rest).any (fun q => q.1 = k)) = true := by
        simp [List.any_cons, hp]
      simp [dictInsert, hany, List.map_cons, if_pos hp, dictGet]
    · by_cases hrest : (rest.any (fun q => q.1 = k)) = true
      · have hany : ((p :: rest).any (fun q => q.1 = k)) = true := by
          simp [List.any_cons, hrest]
        have ih' : dictGet (rest.map (fun q => if q.1 = k then (k, v) else q)) k
            = some v := by
          simpa [dictInsert, hrest] using ih
        simp [dictInsert, hany, List.map_cons, if_neg hp, dictGet, hp, ih']
      · have hany : ((p :: rest).any (fun q => q.1 = k)) = false := by
          simp [List.any_cons, hrest, hp]
        have ih' : dictGet (rest ++ [(k, v)]) k = some v := by
          simpa [dictInsert, hrest] using ih
        simp [dictInsert, hany, dictGet, hp, ih']

theorem dictGet_dictInsert_other {d : GuideTable} {k k' : String} {v : List GuideEntry}
    (h : k' ≠ k) : dictGet (dictInsert d k v) k' = dictGet d k' := by
  simp only [dictInsert]
  by_cases hany : (d.any (fun q => q.1 = k)) = true
  · rw [if_pos hany]
    exact dictGet_mapReplace h
  · rw [if_neg hany]
    exact dictGet_append_single h

theorem dictGet_dictUpdate_none {new : GuideTable} {k : String}
    (h : dictGet new k = none) (d : GuideTable) :
    dictGet (dictUpdate d new) k = dictGet d k := by
  induction new generalizing d with
  | nil => rfl
  | cons p rest ih =>
    have hp : p.1 ≠ k := by
      intro hk
      simp [dictGet, hk] at h
    have hrest : dictGet rest k = none := by
      simpa [dictGet, hp] using h
    show dictGet (dictUpdate (dictInsert d p.1 p.2) rest) k = dictGet d k
    rw [ih hrest, dictGet_dictInsert_other (Ne.symm hp)]

theorem dictGet_none_of_keys_ne {d : GuideTable} {k : String}
    (h : ∀ p ∈ d, p.1 ≠ k) : dictGet d k = none := by
  induction d with
  | nil => rfl
  | cons p rest ih =>
    simp only [dictGet, if_neg (h p (List.mem_cons_self _ _))]
    exact ih fun q hq => h q (List.mem_cons_of_mem _ hq)

theorem dictGet_dictUpdate_some {new : GuideTable} {k : String} {v : List GuideEntry}
    (hnd : new.Pairwise (fun a b => a.1 ≠ b.1))
    (h : dictGet new k = some v) (d : GuideTable) :
    dictGet (dictUpdate d new) k = some v := by
  induction new generalizing d with
  | nil => cases h
  | cons p rest ih =>
    obtain ⟨hhead, htail⟩ := List.pairwise_cons.mp hnd
    by_cases hp : p.1 = k
    · have hv : p.2 = v := by
        simpa [dictGet, hp] using h

      have hrest : dictGet rest k = none :=
        dictGet_none_of_keys_ne fun q hq => fun hqk => hhead q hq (hp.trans hqk.symm)
      show dictGet (dictUpdate (dictInsert d p.1 p.2) rest) k = some v
      have hins : dictGet (dictInsert d p.1 p.2) k = some p.2 := by
        rw [hp]
        exact dictGet_dictInsert_self d k p.2
      rw [dictGet_dictUpdate_none hrest, hins, hv]
    · have hrest : dictGet rest k = some v := by
        simpa [dictGet, hp] using h
      exact ih htail hrest _

/-! ## Invariant of the two-thread interleaving model -/

/-- How many compute passes a thread can still perform: one before it
has passed its `compute` step, none afterwards. -/
def maxLeft (t : ThreadSt) : Nat :=
  match t.pc with
  | TPC.check => 1
  | TPC.compute => 1
  | TPC.store => 0
  | TPC.done => 0

/-- Inductive invariant of the interleaving model: a valid cache holds
the payload, finished threads returned the payload, and the compute
count plus the remaining compute capacity never exceeds the number of
threads. -/
def concInv (P : List Channel) (s : ConcState) : Prop :=
  (s.cacheValid = true → s.cache = some P) ∧
  (s.thr0.pc = TPC.done → s.thr0.result = some P) ∧
  (s.thr1.pc = TPC.done → s.thr1.result = some P) ∧
  s.computeCount + maxLeft s.thr0 + maxLeft s.thr1 ≤ 2

theorem stepThread_cache {P : List Channel} {t : ThreadSt}
    {cache : Option (List Channel)} {valid : Bool} {count : Nat}
    (hcv : valid = true → cache = some P) :
    ((stepThread P t cache valid count).2.2.1 = true →
      (stepThread P t cache valid count).2.1 = some P) := by
  cases hpc : t.pc <;> simp only [stepThread, hpc]
  · by_cases hv : valid = true
    · simp [hv, hcv]
    · simp only [Bool.not_eq_true] at hv
      simp only [hv, Bool.false_eq_true, if_false]
      exact fun h => absurd h (by simp [hv])
  · exact hcv
  · simp
  · exact hcv

theorem stepThread_result {P : List Channel} {t : ThreadSt}
    {cache : Option (List Channel)} {valid : Bool} {count : Nat}
    (hcv : valid = true → cache = some P) (ht : t.pc = TPC.done → t.result = some P) :
    ((stepThread P t cache valid count).1.pc = TPC.done →
      (stepThread P t cache valid count).1.result = some P) := by
  cases hpc : t.pc <;> simp only [stepThread, hpc]
  · by_cases hv : valid = true
    · simp [hv, hcv hv]
    · simp only [Bool.not_eq_true] at hv
      simp [hv]
  · simp
  · simp
  · simpa [hpc] using ht

theorem stepThread_budget (P : List Channel) (t : ThreadSt)
    (cache : Option (List Channel)) (valid : Bool) (count : Nat) :
    (stepThread P t cache valid count).2.2.2 + maxLeft (stepThread P t cache valid count).1
      ≤ count + maxLeft t := by
  cases hpc : t.pc <;> simp only [stepThread, hpc, maxLeft]
  · by_cases hv : valid = true
    · simp [hv, maxLeft]
    · simp only [Bool.not_eq_true] at hv
      simp [hv, maxLeft]
  · simp [maxLeft]
  · simp [maxLeft]
  · simp [maxLeft]

theorem oneStep_inv {P : List Channel} {b : Bool} {s : ConcState}
    (h : concInv P s) : concInv P (oneStep P b s) := by
  obtain ⟨hcv, h0, h1, hb⟩ := h
  cases b
  · refine ⟨?_, ?_, ?_, ?_⟩
    · simpa [oneStep] using @stepThread_cache P s.thr0 s.cache s.cacheValid s.computeCount hcv
    · simpa [oneStep] using
        @stepThread_result P s.thr0 s.cache s.cacheValid s.computeCount hcv h0
    · simpa [oneStep] using h1
    · have := stepThread_budget P s.thr0 s.cache s.cacheValid s.computeCount
      simp only [oneStep, Bool.false_eq_true, if_false]
      omega
  · refine ⟨?_, ?_, ?_, ?_⟩
    · simpa [oneStep] using @stepThread_cache P s.thr1 s.cache s.cacheValid s.computeCount hcv
    · simpa [oneStep] using h0
    · simpa [oneStep] using
        @stepThread_result P s.thr1 s.cache s.cacheValid s.computeCount hcv h1
    · have := stepThread_budget P s.thr1 s.cache s.cacheValid s.computeCount
      simp only [oneStep, if_true]
      omega

theorem runSched_inv {P : List Channel} {sched : List Bool} {s : ConcState}
    (h : concInv P s) : concInv P (runSched P sched s) := by
  induction sched generalizing s with
  | nil => exact h
  | cons b rest ih => exact ih (oneStep_inv h)

theorem concInv_init (P : List Channel) : concInv P concInit := by
  refine ⟨?_, ?_, ?_, ?_⟩ <;> simp [concInit, maxLeft]

/-! ## Remaining pipeline lemmas -/

/-- If every provider raises, the fan-out collects nothing and the
merged result is empty. -/
theorem get_all_channels_of_all_error {r : FilterRules}
    {providers : List (String × Except Unit (List Channel))}
    (h : ∀ p ∈ providers, p.2 = Except.error ()) :
    get_all_channels r providers = [] := by
  unfold get_all_channels
  rw [gatherChannels_all_error h]
  rfl

/-! ## Concrete records used in counterexamples and witnesses -/

/-- A raw record whose id is whitespace only. -/
def rawWsId : RawChannel :=
  { id := some " ", name := some "A", stream_url := some "http://a" }

/-- A raw record whose name is whitespace only. -/
def rawWsName : RawChannel :=
  { id := some "x", name := some " ", stream_url := some "http://a" }

/-- A fully well-formed raw record. -/
def rawGood : RawChannel :=
  { id := some "x", name := some "A", stream_url := some "http://a" }

/-- A single provider publishing the well-formed record through the
uniform validate/normalize pipeline. -/
def goodProviders : List (String × Except Unit (List Channel)) :=
  [("samsung", Except.ok (providerChannels [rawGood]))]

/-- The merged channel produced from `rawGood` by the full pipeline. -/
def chanGoodOut : Channel :=
  { id := "x", name := "A", stream_url := "http://a", group := some "General",
    language := some "en", provider := some "samsung", channel_number := some 1 }

def espnA : Channel := { id := "e1", name := "ESPN", stream_url := "http://a" }

def espnB : Channel := { id := "e2", name := " espn ", stream_url := "http://a" }

def chanA1 : Channel := { id := "a1", name := "One", stream_url := "http://1" }

def chanA2 : Channel := { id := "a2", name := "Two", stream_url := "http://2" }

def chanA3 : Channel := { id := "a3", name := "Three", stream_url := "http://3" }

def chanA1n : Channel :=
  { chanA1 with provider := some "A", channel_number := some 1 }

def chanA2n : Channel :=
  { chanA2 with provider := some "A", channel_number := some 2 }

def chanA3n : Channel :=
  { chanA3 with provider := some "A", channel_number := some 3 }

/-- A channel with an adapter-supplied number above the 999999 sentinel. -/
def chanBig : Channel :=
  { id := "b", name := "B", stream_url := "http://b", channel_number := some 1000000 }

/-- A channel with no channel number at all. -/
def chanNoNum : Channel :=
  { id := "n", name := "N", stream_url := "http://n", channel_number := none }

def chanNum1 : Channel :=
  { id := "o", name := "O", stream_url := "http://o", channel_number := some 1 }

def staleCh : Channel := { id := "s", name := "S", stream_url := "http://s" }

/-- A cache state holding an expired (stale) previous result. -/
def staleState : AggState :=
  { channels_cache := some [staleCh], cache_expiry := some 10 }

def entryOne : GuideEntry :=
  { title := "one", start := "20250101000000", stop := "20250101010000" }

def entryTwo : GuideEntry :=
  { title := "two", start := "20250101010000", stop := "20250101020000" }

/-- A raw programme whose start equals its stop. -/
def progStartEqStop : RawProg :=
  { title := some "T", start := some "20250101000000 +0000",
    stop := some "20250101000000 +0000" }

/-- The guide entry the pipeline produces from `progStartEqStop`. -/
def entryEq : GuideEntry := normalize_programme progStartEqStop

/-- A raw record whose group is whitespace only (truthy, strips to empty). -/
def rawWsGroup : RawChannel :=
  { id := some "x", name := some "n", stream_url := some "u", group := some "  " }

/-- A raw record whose language is whitespace only. -/
def rawWsLang : RawChannel :=
  { id := some "x", name := some "n", stream_url := some "u", language := some " " }

/-- A schedule interleaving the two threads step by step. -/
def demoSched : List Bool := [false, true, false, true, false, true]

/-! ## The claims -/

/-- Claim C1, counterexample. The claim states that a channel whose id,
name, or stream_url is empty after trimming is rejected by the
normalization/validation pipeline and never enters the merged set.
Both parts fail: a record whose name is whitespace only passes
validate_channel and normalize_channel (it is not rejected, it is only
dropped much later by the deduplicator), and a record whose id is
whitespace only flows through the entire pipeline into the merged set,
where its id is empty after trimming. -/
theorem claim_C1_counterexample :
    ((providerProcess rawWsName).isSome = true ∧
      pyStrip (rawWsName.name.getD "") = "") ∧
    ((get_all_channels noRules
        [("samsung", Except.ok (providerChannels [rawWsId]))]).map Channel.id
      = [" "] ∧ pyStrip " " = "") := by
  decide

/-- Claim C1, amended. When every registered provider builds its list
through the uniform validate/normalize pipeline, every channel of the
merged set has a non-empty lowercased-trimmed name, a non-empty name,
a non-empty stream_url, and a literally non-empty (but possibly
whitespace-only) id: validation rejects literally-empty required
fields without raising, and the deduplicator drops channels whose
trimmed name or stream_url is empty; the id is never trimmed. -/
theorem claim_C1_amended (r : FilterRules)
    (providers : List (String × Except Unit (List Channel)))
    (hp : ∀ pname payload, (pname, Except.ok payload) ∈ providers →
      ∃ raws, payload = providerChannels raws) :
    ∀ c ∈ get_all_channels r providers,
      pyStrip (pyLower c.name) ≠ "" ∧ c.name ≠ "" ∧ c.stream_url ≠ "" ∧ c.id ≠ "" := by
  intro c hc
  have hc1 : c ∈ removeDuplicates (applyFilters r (gatherChannels providers 1)) :=
    (sortChannels_perm _).mem_iff.mp hc
  have hval := mem_removeDupsGo_valid hc1
  have hc2 : c ∈ applyFilters r (gatherChannels providers 1) :=
    (removeDupsGo_sublist [] _).subset hc1
  have hc3 : c ∈ gatherChannels providers 1 := (List.mem_filter.mp hc2).1
  obtain ⟨pname, payload, c₀, hmem, hc₀, hid, hname, hurl⟩ := mem_gatherChannels hc3
  obtain ⟨raws, rfl⟩ := hp pname payload hmem
  obtain ⟨raw, hv, rfl⟩ := mem_providerChannels hc₀
  have hidne : c.id ≠ "" := by
    rw [hid]
    exact validate_channel_id_ne hv
  have hnamene : c.name ≠ "" := by
    intro h
    apply hval.1
    show pyStrip (pyLower c.name) = ""
    rw [h]
    rfl
  exact ⟨hval.1, hnamene, hval.2, hidne⟩

/-- Claim C1, witness: the amended theorem applied to a concrete
provider whose single record is well-formed. -/
theorem claim_C1_witness :
    pyStrip (pyLower chanGoodOut.name) ≠ "" ∧ chanGoodOut.name ≠ "" ∧
    chanGoodOut.stream_url ≠ "" ∧ chanGoodOut.id ≠ "" := by
  refine claim_C1_amended noRules goodProviders ?_ chanGoodOut (by decide)
  intro pname payload hmem
  simp only [goodProviders, List.mem_singleton, Prod.mk.injEq] at hmem
  exact ⟨[rawGood], by simpa using hmem.2⟩

/-- Claim C2, counterexample. The claim states that under concurrent
calls while no valid cache entry exists, no more than one recomputation
ever runs for the key. In the interleaving model of
`_get_all_channels` (check under lock, compute outside the lock, store
under lock) the schedule that lets both threads pass their cache check
before either stores makes both threads recompute: two compute passes. -/
theorem claim_C2_counterexample :
    concInit.cacheValid = false ∧
    (runSched [] demoSched concInit).computeCount = 2 := by
  exact ⟨rfl, by decide⟩

/-- Claim C2, amended. Under concurrent calls while no valid entry
exists, each caller that passes the invalid cache check runs its own
recomputation — up to one compute pass per caller (two in the
two-thread model), not one in total; the lock makes the check and the
store atomic, so every caller that finishes still observes the same
payload (the deterministic computation result). -/
theorem claim_C2_amended (P : List Channel) (sched : List Bool) :
    (runSched P sched concInit).computeCount ≤ 2 ∧
    ((runSched P sched concInit).thr0.pc = TPC.done →
      (runSched P sched concInit).thr0.result = some P) ∧
    ((runSched P sched concInit).thr1.pc = TPC.done →
      (runSched P sched concInit).thr1.result = some P) := by
  obtain ⟨h1, h2, h3, h4⟩ := @runSched_inv P sched concInit (concInv_init P)
  refine ⟨?_, h2, h3⟩
  omega

/-- Claim C2, witness: both threads finish under the interleaved
schedule and each returns the payload. -/
theorem claim_C2_witness :
    (runSched [staleCh] demoSched concInit).thr0.result = some [staleCh] ∧
    (runSched [staleCh] demoSched concInit).thr1.result = some [staleCh] :=
  ⟨(claim_C2_amended [staleCh] demoSched).2.1 (by decide),
   (claim_C2_amended [staleCh] demoSched).2.2 (by decide)⟩

/-- Claim C3: a raising adapter is skipped and contributes nothing —
removing it from the provider list leaves the merged result unchanged
— and concretely, with adapter A succeeding with three channels and
adapter B raising, the merged result is exactly A's three channels
(annotated with source and sequential numbers). The aggregation is a
total function: the adapter failure never escapes to the caller. -/
theorem claim_C3_theorem :
    (∀ (r : FilterRules) (ps qs : List (String × Except Unit (List Channel)))
       (nm : String),
       get_all_channels r (ps ++ (nm, Except.error ()) :: qs)
         = get_all_channels r (ps ++ qs)) ∧
    get_all_channels noRules
        [("A", Except.ok [chanA1, chanA2, chanA3]), ("B", Except.error ())]
      = [chanA1n, chanA2n, chanA3n] := by
  constructor
  · intro r ps qs nm
    unfold get_all_channels
    rw [gatherChannels_drop_error]
  · decide

/-- Claim C4, counterexample. The claim states that when two adapters
both report entries for one channel_id, the merged GuideTable maps it
to the concatenation of both lists. The merge uses Python dict.update,
which REPLACES the value on a key collision: with adapter A reporting
[entryOne] and adapter B reporting [entryTwo] for channel "c", the
merged table maps "c" to [entryTwo], not to the concatenation. -/
theorem claim_C4_counterexample :
    dictGet (get_all_epg
        [("A", Except.ok [("c", [entryOne])]), ("B", Except.ok [("c", [entryTwo])])])
        "c" = some [entryTwo] ∧
    dictGet (get_all_epg
        [("A", Except.ok [("c", [entryOne])]), ("B", Except.ok [("c", [entryTwo])])])
        "c" ≠ some ([entryOne] ++ [entryTwo]) := by
  decide

/-- Claim C4, amended. When two adapters both report entry lists and
the second adapter's table maps a channel_id to some list, the merged
GuideTable maps that channel_id to exactly the SECOND adapter's list
(dict.update overwrites on collision); the merge is a total function
and does not crash. -/
theorem claim_C4_amended (nm1 nm2 : String) (t1 t2 : GuideTable) (cid : String)
    (es : List GuideEntry) (hnd : t2.Pairwise (fun a b => a.1 ≠ b.1))
    (h : dictGet t2 cid = some es) :
    dictGet (get_all_epg [(nm1, Except.ok t1), (nm2, Except.ok t2)]) cid = some es := by
  have ht2 : ¬ (t2 = ([] : GuideTable)) := by
    intro he
    rw [he] at h
    cases h
  show dictGet
    (if t2 = ([] : GuideTable) then _ else
      dictUpdate (if t1 = ([] : GuideTable) then [] else dictUpdate [] t1) t2) cid
    = some es
  rw [if_neg ht2]
  exact dictGet_dictUpdate_some hnd h _

/-- Claim C4, witness: the amended theorem at concrete colliding
tables. -/
theorem claim_C4_witness :
    dictGet (get_all_epg
        [("A", Except.ok [("c", [entryOne])]),
         ("B", Except.ok [("c", [entryTwo]), ("d", [entryOne])])]) "c"
      = some [entryTwo] :=
  claim_C4_amended "A" "B" [("c", [entryOne])] [("c", [entryTwo]), ("d", [entryOne])]
    "c" [entryTwo] (by decide) (by decide)

/-- Claim C5, counterexample. The claim states that when a
recomputation pass fails and a previous (stale) cache entry exists, the
stale entry is served. In the code there is no stale fallback: with an
expired entry [staleCh] in the cache and the only adapter raising, the
caller receives the freshly computed empty list, not the stale
payload. -/
theorem claim_C5_counterexample :
    staleState.channels_cache = some [staleCh] ∧
    is_cache_valid staleState 20 = false ∧
    (callChannels noRules 3600 [("A", Except.error ())] staleState 20).1 = [] ∧
    (callChannels noRules 3600 [("A", Except.error ())] staleState 20).1
      ≠ [staleCh] := by
  decide

/-- Claim C5, amended. When the cache is invalid and the recomputation
pass fails (every adapter raises), the caller receives the empty
channel list — never a raised error — and the empty list is stored in
the cache, overwriting any prior Fresh/Stale entry; stale entries are
never served as a fallback. -/
theorem claim_C5_amended (r : FilterRules) (duration : Nat)
    (providers : List (String × Except Unit (List Channel)))
    (s : AggState) (now : Nat)
    (hv : is_cache_valid s now = false)
    (he : ∀ p ∈ providers, p.2 = Except.error ()) :
    (callChannels r duration providers s now).1 = [] ∧
    (callChannels r duration providers s now).2.1.channels_cache = some [] := by
  have hg := get_all_channels_of_all_error (r := r) he
  simp [callChannels, hv, hg]

/-- Claim C5, witness: the amended theorem at the concrete stale
state. -/
theorem claim_C5_witness :
    (callChannels noRules 3600 [("A", Except.error ())] staleState 20).1 = [] ∧
    (callChannels noRules 3600 [("A", Except.error ())] staleState 20).2.1.channels_cache
      = some [] :=
  claim_C5_amended noRules 3600 [("A", Except.error ())] staleState 20
    (by decide)
    (by
      intro p hp
      simp only [List.mem_singleton] at hp
      subst hp
      rfl)

/-- Claim C6, counterexample. The claim states that a record without a
channel_number sorts after all numbered records, for every
adapter-supplied number (missing treated as plus infinity). The sort
key replaces a missing number by the sentinel 999999, so a channel
with the adapter-supplied number 1000000 sorts AFTER the unnumbered
channel. -/
theorem claim_C6_counterexample :
    chanBig.channel_number = some 1000000 ∧
    chanNoNum.channel_number = none ∧
    sortChannels [chanBig, chanNoNum] = [chanNoNum, chanBig] := by
  decide

/-- Claim C6, amended. The final ordering is ascending by the sort key
channel_number-with-default-999999 (so an unnumbered record sorts
after records numbered below 999999 but at or before records numbered
999999 and above), the output is a permutation of the input, and the
sort is stable: any two records in key order keep their relative
input order, including all ties. -/
theorem claim_C6_amended (l : List Channel) :
    List.Perm (sortChannels l) l ∧
    (sortChannels l).Pairwise (fun a b => sortKey a ≤ sortKey b) ∧
    (∀ a b, [a, b].Sublist l → sortKey a ≤ sortKey b →
      [a, b].Sublist (sortChannels l)) :=
  ⟨sortChannels_perm l, sortChannels_sorted l,
   fun _ _ h hab => pair_sublist_sortChannels h hab⟩

/-- Claim C6, witness: stability applied to a concrete three-channel
list. -/
theorem claim_C6_witness :
    [chanNum1, chanNoNum].Sublist (sortChannels [chanNum1, chanBig, chanNoNum]) :=
  (claim_C6_amended [chanNum1, chanBig, chanNoNum]).2.2 chanNum1 chanNoNum
    (List.Sublist.cons₂ chanNum1
      (List.Sublist.cons chanBig (List.Sublist.refl [chanNoNum])))
    (by decide)

/-- Claim C7: deduplication keys each channel by
(lowercased-trimmed name, stream_url); the output is a sublist of the
input (first-seen order preserved), contains only channels whose key
components are non-empty (empty name or stream_url is excluded from
the keyed set), carries pairwise-distinct keys (every later channel
with an already-seen key is dropped), and keeps the first channel of
each valid key; concretely exactly the first of the two ESPN variants
survives. -/
theorem claim_C7_theorem :
    (∀ l : List Channel, (removeDuplicates l).Sublist l) ∧
    (∀ (l : List Channel) (c : Channel), c ∈ removeDuplicates l →
      (dedupKey c).1 ≠ "" ∧ (dedupKey c).2 ≠ "") ∧
    (∀ l : List Channel,
      (removeDuplicates l).Pairwise (fun a b => dedupKey a ≠ dedupKey b)) ∧
    (∀ (l : List Channel) (k : String × String) (d : Channel),
      k.1 ≠ "" → k.2 ≠ "" → l.find? (fun x => dedupKey x = k) = some d →
      d ∈ removeDuplicates l) ∧
    removeDuplicates [espnA, espnB] = [espnA] := by
  refine ⟨fun l => removeDupsGo_sublist [] l,
    fun l c h => mem_removeDupsGo_valid h,
    fun l => removeDupsGo_pairwise [] l,
    fun l k d h1 h2 hf => find?_mem_removeDupsGo h1 h2 (by simp) hf,
    by decide⟩

/-- Claim C7, witness: the first-seen channel of the ESPN key is kept. -/
theorem claim_C7_witness : espnA ∈ removeDuplicates [espnA, espnB] :=
  claim_C7_theorem.2.2.2.1 [espnA, espnB] ("espn", "http://a") espnA
    (by decide) (by decide) (by decide)

/-- Claim C8: from an empty cache, a call followed by a second call
within the TTL window (no intervening invalidation) runs the provider
fan-out exactly once across both calls, and both calls return the
identical payload. -/
theorem claim_C8_theorem (r : FilterRules) (duration : Nat)
    (providers : List (String × Except Unit (List Channel)))
    (t1 t2 : Nat) (h : t2 < t1 + duration) :
    (callChannels r duration providers {} t1).2.2 +
      (callChannels r duration providers
        (callChannels r duration providers {} t1).2.1 t2).2.2 = 1 ∧
    (callChannels r duration providers {} t1).1 =
      (callChannels r duration providers
        (callChannels r duration providers {} t1).2.1 t2).1 := by
  have h1 : is_cache_valid {} t1 = false := rfl
  simp [callChannels, h1, is_cache_valid, h]

/-- Claim C8, witness: concrete times 100 and 200 inside a 3600-second
window. -/
theorem claim_C8_witness :
    (callChannels noRules 3600 goodProviders {} 100).2.2 +
      (callChannels noRules 3600 goodProviders
        (callChannels noRules 3600 goodProviders {} 100).2.1 200).2.2 = 1 ∧
    (callChannels noRules 3600 goodProviders {} 100).1 =
      (callChannels noRules 3600 goodProviders
        (callChannels noRules 3600 goodProviders {} 100).2.1 200).1 :=
  claim_C8_theorem noRules 3600 goodProviders 100 200 (by decide)

/-- Claim C9, counterexample. The claim states that every guide entry
whose start is not strictly earlier than its stop is dropped during
validation. validate_programme never compares start and stop: a
programme whose start equals its stop passes validation and appears in
the guide served for its channel. -/
theorem claim_C9_counterexample :
    dictGet (get_all_epg
        [("samsung", Except.ok [("c", providerEntries [progStartEqStop])])]) "c"
      = some [entryEq] ∧
    entryEq.start = entryEq.stop ∧
    ¬ entryEq.start < entryEq.stop := by
  refine ⟨by decide, by decide, ?_⟩
  have h : entryEq.start = entryEq.stop := by decide
  rw [h]
  exact lt_irrefl _

/-- Claim C9, amended. Guide-entry validation checks only that title,
start and stop are present and non-empty; it never compares start with
stop, so every raw entry with non-empty title, start and stop — in
particular one with start equal to or after stop — survives into the
served guide. -/
theorem claim_C9_amended (p : RawProg) (t s e : String)
    (ht : p.title = some t) (ht' : t ≠ "")
    (hs : p.start = some s) (hs' : s ≠ "")
    (he : p.stop = some e) (he' : e ≠ "") :
    progProcess p = some (normalize_programme p) := by
  have hv : validate_programme p = true := by
    simp [validate_programme, truthy, ht, hs, he, ht', hs', he']
  simp [progProcess, hv]

/-- Claim C9, witness: the amended theorem at the start-equals-stop
programme. -/
theorem claim_C9_witness :
    progProcess progStartEqStop = some (normalize_programme progStartEqStop) :=
  claim_C9_amended progStartEqStop "T" "20250101000000 +0000" "20250101000000 +0000"
    rfl (by decide) rfl (by decide) rfl (by decide)

/-- Claim C10, counterexample. The claim states that normalize_channel
output always contains group and language keys. A whitespace-only
group (or language) is truthy, so no default is inserted, and it strips
to the empty string, so the final empty-string cleanup removes the key:
the output contains no group (respectively language) key. -/
theorem claim_C10_counterexample :
    (normalize_channel rawWsGroup).group = none ∧
    (normalize_channel rawWsLang).language = none := by
  decide

/-- Claim C10, amended. normalize_channel is a total function of its
input; its output contains a group key equal to "General" when the
input group is absent or empty, equal to the stripped input group when
that is non-empty, and contains NO group key when the input group is
whitespace-only (truthy but strips to empty); likewise for language
with default "en". -/
theorem claim_C10_amended (c : RawChannel) :
    ((c.group = none ∨ c.group = some "") →
      (normalize_channel c).group = some "General") ∧
    (∀ g, c.group = some g → g ≠ "" → pyStrip g ≠ "" →
      (normalize_channel c).group = some (pyStrip g)) ∧
    (∀ g, c.group = some g → g ≠ "" → pyStrip g = "" →
      (normalize_channel c).group = none) ∧
    ((c.language = none ∨ c.language = some "") →
      (normalize_channel c).language = some "en") ∧
    (∀ g, c.language = some g → g ≠ "" → pyStrip g ≠ "" →
      (normalize_channel c).language = some (pyStrip g)) ∧
    (∀ g, c.language = some g → g ≠ "" → pyStrip g = "" →
      (normalize_channel c).language = none) := by
  refine ⟨?_, ?_, ?_, ?_, ?_, ?_⟩
  · rintro (h | h) <;> simp [normalize_channel, optFieldD, truthy, h]
  · intro g hg hne hps
    simp [normalize_channel, optFieldD, truthy, hg, hne, hps]
  · intro g hg hne hps
    simp [normalize_channel, optFieldD, truthy, hg, hne, hps]
  · rintro (h | h) <;> simp [normalize_channel, optFieldD, truthy, h]
  · intro g hg hne hps
    simp [normalize_channel, optFieldD, truthy, hg, hne, hps]
  · intro g hg hne hps
    simp [normalize_channel, optFieldD, truthy, hg, hne, hps]

/-- Claim C10, witness: the amended theorem at the default-group input
and the whitespace-group input. -/
theorem claim_C10_witness :
    (normalize_channel rawGood).group = some "General" ∧
    (normalize_channel rawWsGroup).group = none :=
  ⟨(claim_C10_amended rawGood).1 (Or.inl rfl),
   (claim_C10_amended rawWsGroup).2.2.1 "  " rfl (by decide) (by decide)⟩

end KptvFast
